import Mathlib

/-!
Verification of the `ms-graph-sharepoint` repository.

The development shallowly embeds the two components of the repository:

* `NormalizeUtils` (`src/utils/normalize.js`) — pure text normalization for
  SharePoint file names, modelled as functions on `List Char`.  The JavaScript
  regex replaces are translated replace-by-replace: global single-character
  alternations become filters, the non-global replaces become replace-first
  scans, and the link regex `https?:\/\/[^ ~]+` becomes an explicit
  leftmost-longest matcher.  `Math.random()` is made explicit: the drawn
  suffix value is a parameter `n : ℕ`, and the JavaScript expression
  `(Math.random() * 1000).toFixed(0)` that produces it from the raw draw
  `r ∈ [0,1)` is modelled separately as `randNat` over `ℚ`.

* `MsGraphService` (`src/services/msGraph.service.js`) — the token-refresh /
  bounded-retry request pipeline.  The HTTP transport and the token-refresh
  endpoint are oracles inside an `Env`; the number of HTTP requests made and
  of refresh attempts performed are tracked in `Counters`.
-/

namespace NormalizeUtils

/-- The characters of a string literal, the carrier used for all text. -/
def strChars (s : String) : List Char := s.data

/-- The character class removed by
`.replace(/"|\{|\}|\*|:|<|>|\?|\/|\%|\+|\|/g, '')` (the codes 123 and 125 are
the two braces). -/
def forbiddenChar (c : Char) : Bool :=
  c == '"' || c == Char.ofNat 123 || c == Char.ofNat 125 || c == '*' || c == ':' ||
  c == '<' || c == '>' || c == '?' || c == '/' || c == '%' || c == '+' || c == '|'

/-- The ECMAScript whitespace class `\s` (also the set trimmed by
`String.prototype.trim`). -/
def isJsWs (c : Char) : Bool :=
  c == ' ' || c == '\t' || c == '\n' || c == Char.ofNat 11 || c == Char.ofNat 12 ||
  c == '\r' || c == Char.ofNat 160 || c == Char.ofNat 5760 ||
  (decide (8192 ≤ c.toNat) && decide (c.toNat ≤ 8202)) ||
  c == Char.ofNat 8232 || c == Char.ofNat 8233 || c == Char.ofNat 8239 ||
  c == Char.ofNat 8287 || c == Char.ofNat 12288 || c == Char.ofNat 65279

/-- A character admissible inside the body of a link match: the regex class
`[^ ~]`. -/
def linkBodyChar (c : Char) : Bool := !(c == ' ' || c == '~')

/-- Length of the match of `https?:\/\/[^ ~]+` anchored at the start of `s`
(`none` when the regex does not match there).  The optional `s?` is greedy and
the only backtracking opportunity dies because `s ≠ :`, so the two prefixes
can be tested in order. -/
def linkMatchLen (s : List Char) : Option ℕ :=
  if (strChars "https://").isPrefixOf s then
    if ((s.drop 8).takeWhile linkBodyChar).length = 0 then none
    else some (8 + ((s.drop 8).takeWhile linkBodyChar).length)
  else if (strChars "http://").isPrefixOf s then
    if ((s.drop 7).takeWhile linkBodyChar).length = 0 then none
    else some (7 + ((s.drop 7).takeWhile linkBodyChar).length)
  else none

/-- Fuelled worker for `removeLinks`: scan left to right, erase each
leftmost match, continue after it (the semantics of a global
`String.prototype.replace` with the empty replacement). -/
def removeLinksAux : ℕ → List Char → List Char
  | 0, s => s
  | _ + 1, [] => []
  | f + 1, c :: cs =>
    match linkMatchLen (c :: cs) with
    | some n => removeLinksAux f (List.drop n (c :: cs))
    | none => c :: removeLinksAux f cs

/-- `removeLinks(text)`: `text.replace(/https?:\/\/[^ ~]+/g, '')`.  The fuel
`s.length` is enough because every step consumes at least one character. -/
def removeLinks (s : List Char) : List Char := removeLinksAux s.length s

/-- `.replace(/\*/g, '')`. -/
def stripStars (s : List Char) : List Char := s.filter (fun c => !(c == '*'))

/-- `.replace(/"|\{|\}|\*|:|<|>|\?|\/|\%|\+|\|/g, '')`. -/
def stripForbidden (s : List Char) : List Char := s.filter (fun c => !forbiddenChar c)

/-- `.replace(/\r|\t/g, '')`. -/
def removeCRTab (s : List Char) : List Char :=
  s.filter (fun c => !(c == '\r' || c == '\t'))

/-- `.replace(/\n/g, ' - ')`. -/
def newlineToDash : List Char → List Char
  | [] => []
  | c :: cs => (if c = '\n' then [' ', '-', ' '] else [c]) ++ newlineToDash cs

/-- `.replace(/\&/g, 'and')`. -/
def ampToAnd : List Char → List Char
  | [] => []
  | c :: cs => (if c = '&' then ['a', 'n', 'd'] else [c]) ++ ampToAnd cs

/-- `.replace(/\.+/, '.')`: only the first (leftmost, greedy) run of periods
collapses to a single period. -/
def collapseDotsFirst : List Char → List Char
  | [] => []
  | c :: cs => if c = '.' then '.' :: cs.dropWhile (fun d => d == '.') else
      c :: collapseDotsFirst cs

/-- `.replace(/^~/, '')`. -/
def stripLeadingTilde : List Char → List Char
  | [] => []
  | c :: cs => if c = '~' then cs else c :: cs

/-- `.replace(/^\.|\.$/, '')`: a non-global replace, so exactly the leftmost
match goes — a leading period if there is one, otherwise a trailing period if
there is one. -/
def stripEdgeDot (s : List Char) : List Char :=
  match s with
  | [] => []
  | c :: cs =>
    if c = '.' then cs
    else if s.getLast? = some '.' then s.dropLast
    else s

/-- `.replace(/\s+/, ' ')`: only the first run of whitespace becomes a single
space. -/
def collapseWsFirst : List Char → List Char
  | [] => []
  | c :: cs => if isJsWs c then ' ' :: cs.dropWhile isJsWs else c :: collapseWsFirst cs

/-- `.trim()`: drop ECMAScript whitespace from both ends. -/
def trimWs (s : List Char) : List Char :=
  (((s.dropWhile isJsWs).reverse.dropWhile isJsWs)).reverse

/-- Decimal digit character for `d < 10`. -/
def digitChar (d : ℕ) : Char := Char.ofNat (48 + d)

/-- Fuelled worker for `natToChars`. -/
def natToCharsAux : ℕ → ℕ → List Char
  | 0, _ => []
  | f + 1, n => if n < 10 then [digitChar n] else natToCharsAux f (n / 10) ++ [digitChar (n % 10)]

/-- The decimal digit string of a natural number, as JavaScript prints an
integral number. -/
def natToChars (n : ℕ) : List Char := natToCharsAux (n + 1) n

/-- `(Math.random() * 1000).toFixed(0)` where `r` is the raw draw of
`Math.random()`: multiply by 1000 and round to the nearest integer, ties away
from zero (the ECMAScript `toFixed` rule for nonnegative arguments is
`⌊x + 1/2⌋`). -/
def randNat (r : ℚ) : ℕ := (⌊r * 1000 + 1 / 2⌋).toNat

/-- `pat` occurs as a contiguous substring of `s`: the meaning of the regex
test `/_vti_/.test(str)` on a pattern free of metacharacters. -/
def containsSub (pat : List Char) : List Char → Bool
  | [] => pat.isPrefixOf []
  | c :: cs => pat.isPrefixOf (c :: cs) || containsSub pat cs

/-- The reserved-name list of `replaceOutlookInvalidNames`, with the
`COM0`–`COM9` and `LPT0`–`LPT9` families built by mapping over a range, as in
the source. -/
def invalidNames : List (List Char) :=
  [strChars ".lock", strChars "CON", strChars "PRN", strChars "AUX", strChars "NUL",
    strChars "_vti_", strChars "desktop.ini"] ++
  (List.range 10).map (fun i => strChars "COM" ++ natToChars i) ++
  (List.range 10).map (fun i => strChars "LPT" ++ natToChars i)

/-- `replaceOutlookInvalidNames(str)` with the drawn suffix value `n` made
explicit: if `str` contains `_vti_` return `'vti' + n`; else if `str` is one
of the reserved names return `str + n`; else return `str` unchanged. -/
def replaceOutlookInvalidNames (n : ℕ) (str : List Char) : List Char :=
  if containsSub (strChars "_vti_") str then strChars "vti" ++ natToChars n
  else if invalidNames.contains str then str ++ natToChars n
  else str

/-- The ten chained replaces of `normalize` before the reserved-name
substitution, in source order. -/
def preNormalize (s : List Char) : List Char :=
  trimWs (collapseWsFirst (stripEdgeDot (stripLeadingTilde (collapseDotsFirst
    (ampToAnd (newlineToDash (removeCRTab (stripForbidden (stripStars (removeLinks s))))))))))

/-- `normalize(text)` with the random suffix value `n` explicit. -/
def normalize (n : ℕ) (s : List Char) : List Char :=
  replaceOutlookInvalidNames n (preNormalize s)

/-- The characters the ECMAScript builtin `encodeURIComponent` leaves
unescaped, by code point: the letters (65–90, 97–122), the digits (48–57) and
`- _ . ! ~ * ' ( )` (codes 45, 95, 46, 33, 126, 42, 39, 40, 41). -/
def isUriUnreserved (c : Char) : Bool :=
  (decide (65 ≤ c.toNat) && decide (c.toNat ≤ 90)) ||
  (decide (97 ≤ c.toNat) && decide (c.toNat ≤ 122)) ||
  (decide (48 ≤ c.toNat) && decide (c.toNat ≤ 57)) ||
  c.toNat == 45 || c.toNat == 95 || c.toNat == 46 || c.toNat == 33 ||
  c.toNat == 126 || c.toNat == 42 || c.toNat == 39 || c.toNat == 40 || c.toNat == 41

/-- The UTF-8 bytes of a scalar value, as `encodeURIComponent` emits them. -/
def utf8Bytes (c : Char) : List ℕ :=
  if c.toNat < 128 then [c.toNat]
  else if c.toNat < 2048 then [192 + c.toNat / 64, 128 + c.toNat % 64]
  else if c.toNat < 65536 then
    [224 + c.toNat / 4096, 128 + (c.toNat / 64) % 64, 128 + c.toNat % 64]
  else
    [240 + c.toNat / 262144, 128 + (c.toNat / 4096) % 64, 128 + (c.toNat / 64) % 64,
      128 + c.toNat % 64]

/-- Uppercase hexadecimal digit (the builtin uses uppercase, and the manual
`toString(16).toUpperCase()` for the extra characters matches it). -/
def hexUpperDigit (n : ℕ) : Char := if n < 10 then digitChar n else Char.ofNat (55 + n)

/-- The three characters of one percent-escape `%XX`. -/
def pctByte (b : ℕ) : List Char := ['%', hexUpperDigit (b / 16), hexUpperDigit (b % 16)]

/-- Model of the ECMAScript builtin `encodeURIComponent`. -/
def encodeURIComponent : List Char → List Char
  | [] => []
  | c :: cs =>
    (if isUriUnreserved c then [c] else ((utf8Bytes c).map pctByte).flatten) ++
      encodeURIComponent cs

/-- The class `[!'()*]` of the extra replace in `encodeRFC3986URIComponent`,
by code point (33, 39, 40, 41, 42). -/
def rfcExtraChar (c : Char) : Bool :=
  c.toNat == 33 || c.toNat == 39 || c.toNat == 40 || c.toNat == 41 || c.toNat == 42

/-- `.replace(/[!'()*]/g, (c) => ...)`: escape the five characters the
builtin leaves alone.  Their codes are below 256, so the escape is `pctByte`
of the code. -/
def rfcEscape : List Char → List Char
  | [] => []
  | c :: cs => (if rfcExtraChar c then pctByte c.toNat else [c]) ++ rfcEscape cs

/-- `encodeRFC3986URIComponent(str)`. -/
def encodeRFC3986URIComponent (str : List Char) : List Char :=
  rfcEscape (encodeURIComponent str)

/-- `encode(text) = encodeRFC3986URIComponent(normalize(text))`. -/
def encode (n : ℕ) (text : List Char) : List Char :=
  encodeRFC3986URIComponent (normalize n text)

/-- Value of one hexadecimal digit character. -/
def hexVal (c : Char) : Option ℕ :=
  if decide ('0' ≤ c) && decide (c ≤ '9') then some (c.toNat - 48)
  else if decide ('A' ≤ c) && decide (c ≤ 'F') then some (c.toNat - 55)
  else if decide ('a' ≤ c) && decide (c ≤ 'f') then some (c.toNat - 87)
  else none

/-- Read one `%XX` escape from the front of the list. -/
def readPct : List Char → Option (ℕ × List Char)
  | '%' :: h1 :: h2 :: rest =>
    match hexVal h1, hexVal h2 with
    | some a, some b => some (16 * a + b, rest)
    | _, _ => none
  | _ => none

/-- Read `k` UTF-8 continuation bytes, each written as a `%XX` escape,
returning their 6-bit payloads. -/
def readConts : ℕ → List Char → Option (List ℕ × List Char)
  | 0, s => some ([], s)
  | k + 1, s =>
    match readPct s with
    | some (b, rest) =>
      if 128 ≤ b ∧ b < 192 then
        match readConts k rest with
        | some (bs, rest') => some ((b - 128) :: bs, rest')
        | none => none
      else none
    | none => none

/-- Combine a masked lead value with continuation payloads. -/
def utf8Combine (hi : ℕ) (conts : List ℕ) : ℕ :=
  conts.foldl (fun acc x => acc * 64 + x) hi

/-- A Unicode scalar value (not a surrogate, below 0x110000). -/
def validCodePoint (v : ℕ) : Bool :=
  decide (v < 55296) || (decide (57344 ≤ v) && decide (v < 1114112))

/-- Decode one escaped multi-byte UTF-8 sequence whose lead byte `b` was
already read, rejecting overlong encodings by lead-byte range and minimum
value. -/
def decodeMulti (b : ℕ) (rest : List Char) : Option (ℕ × List Char) :=
  if 194 ≤ b ∧ b < 224 then
    match readConts 1 rest with
    | some (bs, rest') => some (utf8Combine (b - 192) bs, rest')
    | none => none
  else if 224 ≤ b ∧ b < 240 then
    match readConts 2 rest with
    | some (bs, rest') =>
      if 2048 ≤ utf8Combine (b - 224) bs then some (utf8Combine (b - 224) bs, rest')
      else none
    | none => none
  else if 240 ≤ b ∧ b < 245 then
    match readConts 3 rest with
    | some (bs, rest') =>
      if 65536 ≤ utf8Combine (b - 240) bs then some (utf8Combine (b - 240) bs, rest')
      else none
    | none => none
  else none

/-- Fuelled worker for `decodeURIComponent`: characters other than `%` pass
through; a `%` must start a well-formed escaped UTF-8 sequence, otherwise the
builtin throws `URIError`, modelled as `none`. -/
def decodeURIComponentAux : ℕ → List Char → Option (List Char)
  | 0, s => if s.isEmpty then some [] else none
  | _ + 1, [] => some []
  | f + 1, c :: cs =>
    if c = '%' then
      match readPct (c :: cs) with
      | none => none
      | some (b, rest) =>
        if b < 128 then
          match decodeURIComponentAux f rest with
          | some tail => some (Char.ofNat b :: tail)
          | none => none
        else
          match decodeMulti b rest with
          | some (v, rest') =>
            if validCodePoint v then
              match decodeURIComponentAux f rest' with
              | some tail => some (Char.ofNat v :: tail)
              | none => none
            else none
          | none => none
    else
      match decodeURIComponentAux f cs with
      | some tail => some (c :: tail)
      | none => none

/-- Model of the ECMAScript builtin `decodeURIComponent` (the fuel
`s.length` is enough because every step consumes at least one character). -/
def decodeURIComponent (s : List Char) : Option (List Char) :=
  decodeURIComponentAux s.length s

/-- `decode(text) = decodeURIComponent(normalize(text))` — note the source
normalizes the *input* of the decoding step. -/
def decode (n : ℕ) (text : List Char) : Option (List Char) :=
  decodeURIComponent (normalize n text)

/-- The RFC 3986 unreserved characters, the ones `encode` emits unescaped:
letters, digits and `- _ . ~` (codes 45, 95, 46, 126). -/
def isRfcUnreserved (c : Char) : Bool :=
  (decide (65 ≤ c.toNat) && decide (c.toNat ≤ 90)) ||
  (decide (97 ≤ c.toNat) && decide (c.toNat ≤ 122)) ||
  (decide (48 ≤ c.toNat) && decide (c.toNat ≤ 57)) ||
  c.toNat == 45 || c.toNat == 95 || c.toNat == 46 || c.toNat == 126

/-- The reserved names that `normalize` reaches unchanged and therefore
suffixes as themselves — every member of the fixed set except `.lock`
(whose leading period `normalize` strips first) and `_vti_` (replaced by
the literal `vti`). -/
def suffixedReservedNames : List (List Char) :=
  [strChars "CON", strChars "PRN", strChars "AUX", strChars "NUL", strChars "desktop.ini",
    strChars "COM0", strChars "COM1", strChars "COM2", strChars "COM3", strChars "COM4",
    strChars "COM5", strChars "COM6", strChars "COM7", strChars "COM8", strChars "COM9",
    strChars "LPT0", strChars "LPT1", strChars "LPT2", strChars "LPT3", strChars "LPT4",
    strChars "LPT5", strChars "LPT6", strChars "LPT7", strChars "LPT8", strChars "LPT9"]

end NormalizeUtils

namespace MsGraphService

/-- The JSON body of a Graph response: either a success payload (abstracted
to a number) or an application-level `error` object carrying a message. -/
inductive RBody where
  | success (data : ℕ)
  | error (message : String)
deriving DecidableEq

/-- What `#internalRequest` exposes of a transport response: HTTP status,
status text, and the JSON body that `response.json()` would produce. -/
structure Response where
  status : ℕ
  statusText : String
  body : RBody
deriving DecidableEq

/-- The external world: the `i`-th call of `#internalRequest` receives
`responses i`, and the `j`-th call of `#refreshToken` succeeds iff
`refreshOk j` (a failing refresh rejects, which propagates as a thrown
error). -/
structure Env where
  responses : ℕ → Response
  refreshOk : ℕ → Bool

/-- How many transport requests and refresh attempts have happened. -/
structure Counters where
  reqCount : ℕ
  refreshCount : ℕ
deriving DecidableEq

/-- Initial counters of a fresh operation. -/
def initialCounters : Counters := ⟨0, 0⟩

/-- Result of one `#renewTokenWithNeeded` call. -/
inductive RenewResult where
  | ok (body : RBody)
  | authError (statusText : String)
  | refreshFailed
deriving DecidableEq

/-- `#renewTokenWithNeeded`: issue the request; on a 401 refresh the token
once and reissue it; if the second answer is again a 401 throw
`BaseError(statusText)`; otherwise hand back the parsed body. -/
def renewTokenWithNeeded (env : Env) (c : Counters) : RenewResult × Counters :=
  if (env.responses c.reqCount).status = 401 then
    if env.refreshOk c.refreshCount then
      if (env.responses (c.reqCount + 1)).status = 401 then
        (.authError (env.responses (c.reqCount + 1)).statusText,
          ⟨c.reqCount + 2, c.refreshCount + 1⟩)
      else
        (.ok (env.responses (c.reqCount + 1)).body, ⟨c.reqCount + 2, c.refreshCount + 1⟩)
    else
      (.refreshFailed, ⟨c.reqCount + 1, c.refreshCount + 1⟩)
  else
    (.ok (env.responses c.reqCount).body, ⟨c.reqCount + 1, c.refreshCount⟩)

/-- `static #MAX_RETRIES = 3`. -/
def MAX_RETRIES : ℕ := 3

/-- The regex test `/IO error during request payload read/.test(message)`. -/
def ignorableMsg (msg : String) : Bool :=
  NormalizeUtils.containsSub (NormalizeUtils.strChars "IO error during request payload read")
    msg.data

/-- A body that makes one attempt fail without being ignorable: an
application-level error object whose message does not match the ignorable
pattern. -/
def nonIgnorableError : RBody → Bool
  | .success _ => false
  | .error m => !ignorableMsg m

/-- What `#requestGraphApi` can produce. -/
inductive GraphOutcome where
  | success (data : ℕ)
  | nullResult
  | errorThrown (msg : String)
deriving DecidableEq

/-- The message of the retry-bound error, verbatim from the source template
`Max retries error in request [${method}]: ${url}`. -/
def maxRetriesMsg (method url : String) : String :=
  "Max retries error in request [" ++ method ++ "]: " ++ url

/-- The retry loop of `#requestGraphApi`, with `fuel` the number of loop
iterations still allowed (`MAX_RETRIES - retry + 1`).  Every failure inside
the `try` — a thrown renew error, a failed refresh, or a non-ignorable error
body — is caught and consumes one retry; an error body matching the
ignorable pattern returns `null` at once; exhausting the bound throws the
max-retries `BaseError`. -/
def goReq (env : Env) (method url : String) : ℕ → Counters → GraphOutcome × Counters
  | 0, c => (.errorThrown (maxRetriesMsg method url), c)
  | fuel + 1, c =>
    match renewTokenWithNeeded env c with
    | (.ok (.error msg), c') =>
      if ignorableMsg msg then (.nullResult, c')
      else goReq env method url fuel c'
    | (.ok (.success d), c') => (.success d, c')
    | (.authError _, c') => goReq env method url fuel c'
    | (.refreshFailed, c') => goReq env method url fuel c'

/-- `#requestGraphApi({url, method, ...})` for a fresh operation. -/
def requestGraphApi (env : Env) (method url : String) : GraphOutcome × Counters :=
  goReq env method url MAX_RETRIES initialCounters

/-- `NormalizeUtils.encode` on a `String`. -/
def encodeStr (n : ℕ) (s : String) : String :=
  String.mk (NormalizeUtils.encode n s.data)

/-- The remote path built by `uploadFile`:
`<sharepointFolder>:/<folderName>/<encode(fileName)>:/content` where
`fileName` is the last `/`-separated segment of `file`. -/
def uploadUrlFile (n : ℕ) (sharepointFolder folderName file : String) : String :=
  sharepointFolder ++ ":/" ++ folderName ++ "/" ++
    encodeStr n ((file.splitOn "/").getLastD "") ++ ":/content"

/-- What `uploadFile` can produce. -/
inductive UploadOutcome where
  | nullResult
  | success (data : ℕ)
  | uploadError (msg : String)
deriving DecidableEq

/-- `uploadFile({attachmentDir, folderName, file})`: build the remote path,
return `null` when the local file is absent (the existence probe never
throws), otherwise PUT through the retry pipeline; a thrown failure is
wrapped in `BaseError('Cannot upload a new file in ' + urlFile)`.  The local
read is modelled as infallible, and a `null` result of the request makes
`response?.error` undefined, so it is returned as is. -/
def uploadFile (env : Env) (fsExists : String → Bool) (n : ℕ)
    (sharepointFolder attachmentDir folderName file : String) :
    UploadOutcome × Counters :=
  if fsExists (attachmentDir ++ "/" ++ file) then
    match requestGraphApi env "PUT" (uploadUrlFile n sharepointFolder folderName file) with
    | (.success d, c) => (.success d, c)
    | (.nullResult, c) => (.nullResult, c)
    | (.errorThrown _, c) =>
      (.uploadError
        ("Cannot upload a new file in " ++ uploadUrlFile n sharepointFolder folderName file), c)
  else (.nullResult, initialCounters)

/-- A JavaScript value, as far as the `logToken` construction parameter is
concerned. -/
inductive JsVal where
  | str (s : String)
  | bool (b : Bool)
  | undef
deriving DecidableEq

/-- `this.#shouldLogToken = logToken === 'true'`: strict equality against the
string `'true'`. -/
def shouldLogToken (logToken : JsVal) : Bool :=
  match logToken with
  | .str s => s == "true"
  | _ => false

/-- The console lines `#setAuthorizationTokens` writes: the token is printed
iff `#shouldLogToken` is set. -/
def setAuthorizationTokensLog (shouldLog : Bool) (accessToken : String) : List String :=
  if shouldLog then ["🔑 MS Access Token: " ++ accessToken ++ "\n"] else []

end MsGraphService

/-! ## Lemmas about the digit strings of the random suffix -/

namespace NormalizeUtils

theorem natToCharsAux_digits (f n : ℕ) :
    ∀ c ∈ natToCharsAux f n, ∃ d, d < 10 ∧ c = digitChar d := by
  induction f generalizing n with
  | zero => intro c hc; exact absurd hc (by simp [natToCharsAux])
  | succ f ih =>
    intro c hc
    unfold natToCharsAux at hc
    split at hc
    · simp only [List.mem_singleton] at hc
      exact ⟨n, by omega, hc⟩
    · rcases List.mem_append.mp hc with h | h
      · exact ih (n / 10) c h
      · simp only [List.mem_singleton] at h
        exact ⟨n % 10, Nat.mod_lt _ (by omega), h⟩

theorem natToChars_digits (n : ℕ) :
    ∀ c ∈ natToChars n, ∃ d, d < 10 ∧ c = digitChar d :=
  natToCharsAux_digits (n + 1) n

theorem natToChars_ne_nil (n : ℕ) : 0 < (natToChars n).length := by
  unfold natToChars natToCharsAux
  split
  · simp
  · simp

theorem digitChar_isDigit {d : ℕ} (h : d < 10) : (digitChar d).isDigit = true := by
  interval_cases d <;> decide

theorem natToChars_all_digits (n : ℕ) : (natToChars n).all Char.isDigit = true := by
  rw [List.all_eq_true]
  intro c hc
  obtain ⟨d, hd, rfl⟩ := natToChars_digits n c hc
  exact digitChar_isDigit hd

end NormalizeUtils

/-! ## Character-provenance lemmas for the normalization pipeline -/

namespace NormalizeUtils

theorem mem_removeLinksAux {c : Char} : ∀ {f : ℕ} {s : List Char},
    c ∈ removeLinksAux f s → c ∈ s := by
  intro f
  induction f with
  | zero => intro s h; simpa [removeLinksAux] using h
  | succ f ih =>
    intro s h
    cases s with
    | nil => simp [removeLinksAux] at h
    | cons d ds =>
      unfold removeLinksAux at h
      split at h
      · exact (List.drop_sublist _ _).mem (ih h)
      · rcases List.mem_cons.mp h with rfl | h
        · exact List.mem_cons_self _ _
        · exact List.mem_cons_of_mem _ (ih h)

theorem mem_removeLinks {c : Char} {s : List Char} (h : c ∈ removeLinks s) : c ∈ s :=
  mem_removeLinksAux h

theorem mem_stripStars {c : Char} {s : List Char} (h : c ∈ stripStars s) : c ∈ s :=
  (List.mem_filter.mp h).1

theorem mem_stripForbidden {c : Char} {s : List Char} (h : c ∈ stripForbidden s) :
    c ∈ s ∧ forbiddenChar c = false := by
  obtain ⟨h1, h2⟩ := List.mem_filter.mp h
  exact ⟨h1, by simpa using h2⟩

theorem mem_removeCRTab {c : Char} {s : List Char} (h : c ∈ removeCRTab s) : c ∈ s :=
  (List.mem_filter.mp h).1

theorem mem_newlineToDash {c : Char} : ∀ {s : List Char},
    c ∈ newlineToDash s → (c ∈ s ∧ c ≠ '\n') ∨ c = ' ' ∨ c = '-' := by
  intro s
  induction s with
  | nil => intro h; simp [newlineToDash] at h
  | cons d ds ih =>
    intro h
    unfold newlineToDash at h
    rcases List.mem_append.mp h with h | h
    · split at h
      · simp only [List.mem_cons, List.not_mem_nil, or_false] at h
        rcases h with rfl | rfl | rfl
        · exact Or.inr (Or.inl rfl)
        · exact Or.inr (Or.inr rfl)
        · exact Or.inr (Or.inl rfl)
      · simp only [List.mem_singleton] at h
        subst h
        exact Or.inl ⟨List.mem_cons_self _ _, by assumption⟩
    · rcases ih h with ⟨h1, h2⟩ | h
      · exact Or.inl ⟨List.mem_cons_of_mem _ h1, h2⟩
      · exact Or.inr h

theorem mem_ampToAnd {c : Char} : ∀ {s : List Char},
    c ∈ ampToAnd s → c ∈ s ∨ c = 'a' ∨ c = 'n' ∨ c = 'd' := by
  intro s
  induction s with
  | nil => intro h; simp [ampToAnd] at h
  | cons e es ih =>
    intro h
    unfold ampToAnd at h
    rcases List.mem_append.mp h with h | h
    · split at h
      · simp only [List.mem_cons, List.not_mem_nil, or_false] at h
        rcases h with rfl | rfl | rfl
        · exact Or.inr (Or.inl rfl)
        · exact Or.inr (Or.inr (Or.inl rfl))
        · exact Or.inr (Or.inr (Or.inr rfl))
      · simp only [List.mem_singleton] at h
        subst h
        exact Or.inl (List.mem_cons_self _ _)
    · rcases ih h with h | h
      · exact Or.inl (List.mem_cons_of_mem _ h)
      · exact Or.inr h

theorem mem_collapseDotsFirst {c : Char} : ∀ {s : List Char},
    c ∈ collapseDotsFirst s → c ∈ s ∨ c = '.' := by
  intro s
  induction s with
  | nil => intro h; simp [collapseDotsFirst] at h
  | cons d ds ih =>
    intro h
    unfold collapseDotsFirst at h
    split at h
    · rcases List.mem_cons.mp h with rfl | h
      · exact Or.inr rfl
      · exact Or.inl (List.mem_cons_of_mem _ ((List.dropWhile_sublist _).mem h))
    · rcases List.mem_cons.mp h with rfl | h
      · exact Or.inl (List.mem_cons_self _ _)
      · rcases ih h with h | h
        · exact Or.inl (List.mem_cons_of_mem _ h)
        · exact Or.inr h

theorem mem_stripLeadingTilde {c : Char} {s : List Char}
    (h : c ∈ stripLeadingTilde s) : c ∈ s := by
  cases s with
  | nil => simp [stripLeadingTilde] at h
  | cons d ds =>
    simp only [stripLeadingTilde] at h
    split at h
    · exact List.mem_cons_of_mem _ h
    · exact h

theorem mem_stripEdgeDot {c : Char} {s : List Char} (h : c ∈ stripEdgeDot s) : c ∈ s := by
  cases s with
  | nil => simp [stripEdgeDot] at h
  | cons d ds =>
    simp only [stripEdgeDot] at h
    split at h
    · exact List.mem_cons_of_mem _ h
    · split at h
      · exact (List.dropLast_sublist _).mem h
      · exact h

theorem mem_collapseWsFirst {c : Char} : ∀ {s : List Char},
    c ∈ collapseWsFirst s → c ∈ s ∨ c = ' ' := by
  intro s
  induction s with
  | nil => intro h; simp [collapseWsFirst] at h
  | cons d ds ih =>
    intro h
    unfold collapseWsFirst at h
    split at h
    · rcases List.mem_cons.mp h with rfl | h
      · exact Or.inr rfl
      · exact Or.inl (List.mem_cons_of_mem _ ((List.dropWhile_sublist _).mem h))
    · rcases List.mem_cons.mp h with rfl | h
      · exact Or.inl (List.mem_cons_self _ _)
      · rcases ih h with h | h
        · exact Or.inl (List.mem_cons_of_mem _ h)
        · exact Or.inr h

theorem mem_trimWs {c : Char} {s : List Char} (h : c ∈ trimWs s) : c ∈ s := by
  unfold trimWs at h
  rw [List.mem_reverse] at h
  have h := (List.dropWhile_sublist _).mem h
  rw [List.mem_reverse] at h
  exact (List.dropWhile_sublist _).mem h

theorem mem_replaceOutlookInvalidNames {c : Char} {n : ℕ} {s : List Char}
    (h : c ∈ replaceOutlookInvalidNames n s) :
    c ∈ s ∨ c ∈ strChars "vti" ∨ c ∈ natToChars n := by
  unfold replaceOutlookInvalidNames at h
  split at h
  · rcases List.mem_append.mp h with h | h
    · exact Or.inr (Or.inl h)
    · exact Or.inr (Or.inr h)
  · split at h
    · rcases List.mem_append.mp h with h | h
      · exact Or.inl h
      · exact Or.inr (Or.inr h)
    · exact Or.inl h

/-- Every character of `preNormalize s` is neither a member of the stripped
character class nor a literal newline. -/
theorem preNormalize_good {c : Char} {s : List Char} (h : c ∈ preNormalize s) :
    forbiddenChar c = false ∧ c ≠ '\n' := by
  unfold preNormalize at h
  have h := mem_trimWs h
  rcases mem_collapseWsFirst h with h | rfl
  swap
  · exact ⟨by decide, by decide⟩
  have h := mem_stripEdgeDot h
  have h := mem_stripLeadingTilde h
  rcases mem_collapseDotsFirst h with h | rfl
  swap
  · exact ⟨by decide, by decide⟩
  rcases mem_ampToAnd h with h | rfl | rfl | rfl
  case inr.inl => exact ⟨by decide, by decide⟩
  case inr.inr.inl => exact ⟨by decide, by decide⟩
  case inr.inr.inr => exact ⟨by decide, by decide⟩
  rcases mem_newlineToDash h with ⟨h, hn⟩ | rfl | rfl
  case inr.inl => exact ⟨by decide, by decide⟩
  case inr.inr => exact ⟨by decide, by decide⟩
  have h := mem_removeCRTab h
  exact ⟨(mem_stripForbidden h).2, hn⟩

/-- Every character of `normalize n s` is neither a member of the stripped
character class nor a literal newline. -/
theorem normalize_good {c : Char} {n : ℕ} {s : List Char} (h : c ∈ normalize n s) :
    forbiddenChar c = false ∧ c ≠ '\n' := by
  unfold normalize at h
  rcases mem_replaceOutlookInvalidNames h with h | h | h
  · exact preNormalize_good h
  · rw [show strChars "vti" = ['v', 't', 'i'] from rfl] at h
    simp only [List.mem_cons, List.not_mem_nil, or_false] at h
    rcases h with rfl | rfl | rfl <;> exact ⟨by decide, by decide⟩
  · obtain ⟨d, hd, rfl⟩ := natToChars_digits n c h
    interval_cases d <;> exact ⟨by decide, by decide⟩

end NormalizeUtils

/-! ## Decoding and encoding lemmas -/

namespace NormalizeUtils

theorem decodeURIComponentAux_no_pct :
    ∀ (f : ℕ) (s : List Char), (∀ c ∈ s, c ≠ '%') → s.length ≤ f →
      decodeURIComponentAux f s = some s := by
  intro f
  induction f with
  | zero =>
    intro s h hl
    have hnil : s = [] := List.eq_nil_of_length_eq_zero (by omega)
    subst hnil; rfl
  | succ f ih =>
    intro s h hl
    cases s with
    | nil => rfl
    | cons c cs =>
      unfold decodeURIComponentAux
      rw [if_neg (h c (List.mem_cons_self _ _))]
      rw [ih cs (fun d hd => h d (List.mem_cons_of_mem _ hd))
        (by simp only [List.length_cons] at hl; omega)]

theorem rfcUnreserved_uri {c : Char} (h : isRfcUnreserved c = true) :
    isUriUnreserved c = true := by
  unfold isRfcUnreserved at h
  unfold isUriUnreserved
  simp only [Bool.or_eq_true, Bool.and_eq_true, decide_eq_true_eq, beq_iff_eq] at h ⊢
  omega

theorem rfcUnreserved_notExtra {c : Char} (h : isRfcUnreserved c = true) :
    rfcExtraChar c = false := by
  unfold isRfcUnreserved at h
  unfold rfcExtraChar
  simp only [Bool.or_eq_true, Bool.and_eq_true, decide_eq_true_eq, beq_iff_eq] at h
  simp only [Bool.or_eq_false_iff, beq_eq_false_iff_ne, ne_eq]
  omega

theorem rfcUnreserved_ne_pct {c : Char} (h : isRfcUnreserved c = true) : c ≠ '%' := by
  intro hc
  subst hc
  exact absurd h (by decide)

theorem encodeURIComponent_id {s : List Char} (h : ∀ c ∈ s, isRfcUnreserved c = true) :
    encodeURIComponent s = s := by
  induction s with
  | nil => rfl
  | cons c cs ih =>
    have h1 := rfcUnreserved_uri (h c (List.mem_cons_self _ _))
    have h2 := ih (fun d hd => h d (List.mem_cons_of_mem _ hd))
    unfold encodeURIComponent
    simp [h1, h2]

theorem rfcEscape_id {s : List Char} (h : ∀ c ∈ s, isRfcUnreserved c = true) :
    rfcEscape s = s := by
  induction s with
  | nil => rfl
  | cons c cs ih =>
    have h1 := rfcUnreserved_notExtra (h c (List.mem_cons_self _ _))
    have h2 := ih (fun d hd => h d (List.mem_cons_of_mem _ hd))
    unfold rfcEscape
    simp [h1, h2]

theorem normalize_id_of_fixed {n : ℕ} {t : List Char}
    (h2 : preNormalize t = t)
    (h3 : containsSub (strChars "_vti_") t = false)
    (h4 : invalidNames.contains t = false) :
    normalize n t = t := by
  unfold normalize
  rw [h2]
  unfold replaceOutlookInvalidNames
  rw [h3, h4]
  simp

theorem normalize_eq_reserved_suffix {n : ℕ} {R : List Char}
    (h1 : preNormalize R = R)
    (h2 : containsSub (strChars "_vti_") R = false)
    (h3 : invalidNames.contains R = true) :
    normalize n R = R ++ natToChars n := by
  unfold normalize
  rw [h1]
  unfold replaceOutlookInvalidNames
  rw [h2, h3]
  simp

end NormalizeUtils

/-! ## Claims about the normalizer -/

namespace NormalizeUtils

/-- C5: for every input text, `normalize(text)` contains none of the
characters of the stripped set (the quotation mark, the two braces, the
asterisk, colon, angle brackets, question mark, slash, percent, plus and
pipe) and no literal newline character. -/
theorem normalize_no_forbidden (n : ℕ) (s : List Char) :
    (normalize n s).all (fun c => !forbiddenChar c && !(c == '\n')) = true := by
  rw [List.all_eq_true]
  intro c hc
  obtain ⟨h1, h2⟩ := normalize_good hc
  simp [h1, h2]

/-- C9: for every input text, `decode(text)` equals `normalize(text)` (as a
successful decoding): `normalize` removes every percent character, so the
percent-decoding step of `decode` never finds an escape to decode. -/
theorem decode_eq_normalize (n : ℕ) (s : List Char) :
    decode n s = some (normalize n s) := by
  unfold decode decodeURIComponent
  apply decodeURIComponentAux_no_pct _ _ _ le_rfl
  intro c hc hpc
  have h := (normalize_good hc).1
  subst hpc
  exact absurd h (by decide)

/-- C3 counterexample: for the reserved name `.lock`, `normalize('.lock')`
is the string `lock` — the leading period is stripped before the
reserved-name check, so the result does not even start with `.lock`, hence
cannot match `^\.lock[0-9]+$`. -/
theorem normalize_lock_no_suffix :
    normalize 0 (strChars ".lock") = strChars "lock" ∧
    (strChars ".lock").isPrefixOf (strChars "lock") = false := by decide

/-- C3 (amended): for each reserved name R other than `.lock` and `_vti_`,
`normalize(R)` is exactly R followed by the decimal digits of the drawn
suffix (hence matches `^R[0-9]+$`); `normalize('_vti_')` is `vti` followed by
those digits; but `normalize('.lock')` is the plain string `lock` with no
suffix.  The suffix is always a nonempty digit string. -/
theorem normalize_reserved_names (n : ℕ) :
    (∀ R ∈ suffixedReservedNames, normalize n R = R ++ natToChars n) ∧
    normalize n (strChars "_vti_") = strChars "vti" ++ natToChars n ∧
    normalize n (strChars ".lock") = strChars "lock" ∧
    0 < (natToChars n).length ∧
    (natToChars n).all Char.isDigit = true := by
  refine ⟨?_, ?_, ?_, natToChars_ne_nil n, natToChars_all_digits n⟩
  · intro R hR
    fin_cases hR <;>
      exact normalize_eq_reserved_suffix (by decide) (by decide) (by decide)
  · unfold normalize
    rw [show preNormalize (strChars "_vti_") = strChars "_vti_" from by decide]
    unfold replaceOutlookInvalidNames
    rw [show containsSub (strChars "_vti_") (strChars "_vti_") = true from by decide]
    simp
  · unfold normalize
    rw [show preNormalize (strChars ".lock") = strChars "lock" from by decide]
    unfold replaceOutlookInvalidNames
    rw [show containsSub (strChars "_vti_") (strChars "lock") = false from by decide,
      show invalidNames.contains (strChars "lock") = false from by decide]
    simp

/-- C3 witness for the amended statement: `normalize('CON')` with drawn
suffix 3 is `CON3`. -/
theorem normalize_reserved_names_witness :
    normalize 3 (strChars "CON") = strChars "CON" ++ natToChars 3 :=
  (normalize_reserved_names 3).1 (strChars "CON") (by decide)

/-- C4 counterexample: the string `a b` contains no character of the
stripped set, yet `decode(encode('a b'))` is `a20b`, not
`normalize('a b') = 'a b'`: the space is encoded as `%20` and `decode`
re-normalizes its input, which strips the percent sign. -/
theorem decode_encode_space_fails :
    (strChars "a b").all (fun c => !forbiddenChar c) = true ∧
    ((decode 0 (encode 0 (strChars "a b")) == some (normalize 0 (strChars "a b"))) =
      false) := by decide

/-- C4 (amended): `decode(encode(s))` equals `normalize(s)` when
`normalize(s)` consists only of RFC 3986 unreserved characters (so the
encoding step escapes nothing) and is itself a fixed point of the
normalization (no second-pass change, no reserved name, no `_vti_`),
regardless of the random draws of the two calls. -/
theorem decode_encode_roundtrip (n m : ℕ) (s : List Char)
    (h1 : ∀ c ∈ normalize n s, isRfcUnreserved c = true)
    (h2 : preNormalize (normalize n s) = normalize n s)
    (h3 : containsSub (strChars "_vti_") (normalize n s) = false)
    (h4 : invalidNames.contains (normalize n s) = false) :
    decode m (encode n s) = some (normalize n s) := by
  unfold encode encodeRFC3986URIComponent
  rw [encodeURIComponent_id h1, rfcEscape_id h1]
  unfold decode
  rw [normalize_id_of_fixed h2 h3 h4]
  unfold decodeURIComponent
  exact decodeURIComponentAux_no_pct _ _ (fun c hc => rfcUnreserved_ne_pct (h1 c hc)) le_rfl

/-- C4 witness for the amended statement, at `s = 'abc'`. -/
theorem decode_encode_roundtrip_witness :
    decode 0 (encode 0 (strChars "abc")) = some (normalize 0 (strChars "abc")) :=
  decode_encode_roundtrip 0 0 (strChars "abc") (by decide) (by decide) (by decide)
    (by decide)

/-- C8 counterexample: the draw `8191/8192` (an exact double-precision value
of `Math.random()`) lies in `[0,1)` but `(r * 1000).toFixed(0)` rounds it to
`1000`, outside `[0,1000)`. -/
theorem randNat_reaches_1000 :
    (0 : ℚ) ≤ 8191 / 8192 ∧ (8191 : ℚ) / 8192 < 1 ∧ randNat (8191 / 8192) = 1000 := by
  refine ⟨by norm_num, by norm_num, ?_⟩
  unfold randNat
  rw [show ⌊(8191 / 8192 : ℚ) * 1000 + 1 / 2⌋ = 1000 from by
    rw [Int.floor_eq_iff]
    norm_num]
  rfl

/-- C8 (amended): the appended suffix value is always in the closed interval
`[0, 1000]` — rounding instead of truncating lets the draw reach 1000
exactly, so the half-open bound `[0,1000)` of the claim is off by one. -/
theorem randNat_le_1000 (r : ℚ) (_h0 : 0 ≤ r) (h1 : r < 1) : randNat r ≤ 1000 := by
  unfold randNat
  have h : ⌊r * 1000 + 1 / 2⌋ < 1001 := by
    apply Int.floor_lt.mpr
    push_cast
    nlinarith
  omega

/-- C8 witness for the amended statement, at the draw `1/2`. -/
theorem randNat_le_1000_witness : randNat (1 / 2 : ℚ) ≤ 1000 :=
  randNat_le_1000 (1 / 2) (by norm_num) (by norm_num)

end NormalizeUtils

/-! ## Claims about the request pipeline -/

namespace MsGraphService

theorem goReq_succ (env : Env) (method url : String) (fuel : ℕ) (c : Counters) :
    goReq env method url (fuel + 1) c =
      match renewTokenWithNeeded env c with
      | (.ok (.error msg), c') =>
        if ignorableMsg msg then (.nullResult, c') else goReq env method url fuel c'
      | (.ok (.success d), c') => (.success d, c')
      | (.authError _, c') => goReq env method url fuel c'
      | (.refreshFailed, c') => goReq env method url fuel c' := rfl

theorem goReq_step_plainError (env : Env) (method url : String) (fuel k j : ℕ)
    (h1 : (env.responses k).status ≠ 401)
    (h2 : nonIgnorableError (env.responses k).body = true) :
    goReq env method url (fuel + 1) ⟨k, j⟩ = goReq env method url fuel ⟨k + 1, j⟩ := by
  cases hb : (env.responses k).body with
  | success d => rw [hb] at h2; exact absurd h2 (by simp [nonIgnorableError])
  | error m =>
    have hm : ignorableMsg m = false := by
      rw [hb] at h2
      simpa [nonIgnorableError] using h2
    have hr : renewTokenWithNeeded env ⟨k, j⟩ = (.ok (.error m), ⟨k + 1, j⟩) := by
      unfold renewTokenWithNeeded
      simp [h1, hb]
    rw [goReq_succ, hr]
    simp [hm]

theorem goReq_step_auth (env : Env) (method url : String) (fuel k j : ℕ)
    (h1 : (env.responses k).status = 401)
    (h2 : (env.responses (k + 1)).status = 401)
    (h3 : env.refreshOk j = true) :
    goReq env method url (fuel + 1) ⟨k, j⟩ = goReq env method url fuel ⟨k + 2, j + 1⟩ := by
  have hr : renewTokenWithNeeded env ⟨k, j⟩ =
      (.authError (env.responses (k + 1)).statusText, ⟨k + 2, j + 1⟩) := by
    unfold renewTokenWithNeeded
    simp [h1, h2, h3]
  rw [goReq_succ, hr]

/-- C2: when every attempt fails with a non-auth (status other than 401),
non-ignorable application error, the request makes exactly 3 transport
attempts (and no refresh) and then throws the max-retries `BaseError` whose
message names the HTTP verb and the requested path. -/
theorem request_maxRetries (env : Env) (method url : String)
    (h : ∀ i, (env.responses i).status ≠ 401 ∧
      nonIgnorableError (env.responses i).body = true) :
    requestGraphApi env method url =
      (.errorThrown (maxRetriesMsg method url), ⟨3, 0⟩) := by
  have s1 := goReq_step_plainError env method url 2 0 0 (h 0).1 (h 0).2
  have s2 := goReq_step_plainError env method url 1 1 0 (h 1).1 (h 1).2
  have s3 := goReq_step_plainError env method url 0 2 0 (h 2).1 (h 2).2
  calc requestGraphApi env method url
      = goReq env method url 3 ⟨0, 0⟩ := rfl
    _ = goReq env method url 2 ⟨1, 0⟩ := s1
    _ = goReq env method url 1 ⟨2, 0⟩ := s2
    _ = goReq env method url 0 ⟨3, 0⟩ := s3
    _ = (.errorThrown (maxRetriesMsg method url), ⟨3, 0⟩) := rfl

/-- C2 witness: a transport that always answers 500 with a non-ignorable
error body. -/
theorem request_maxRetries_witness :
    requestGraphApi ⟨fun _ => ⟨500, "Server Error", .error "boom"⟩, fun _ => true⟩
      "GET" "drives" = (.errorThrown (maxRetriesMsg "GET" "drives"), ⟨3, 0⟩) :=
  request_maxRetries _ "GET" "drives"
    (fun _ => ⟨show (500 : ℕ) ≠ 401 by decide,
      show nonIgnorableError (.error "boom") = true by decide⟩)

/-- C1 (amended): within one `#renewTokenWithNeeded` attempt, a single 401
triggers exactly one refresh and exactly one retried request (two transport
requests, one refresh); if the retried request is also a 401 the attempt
throws the authorization `BaseError` without a further refresh — but the
retry loop of `#requestGraphApi` catches that error and re-attempts, so a
request whose responses are all 401 (with refresh succeeding) performs three
refresh calls in total and fails with the max-retries error, not the
authorization error. -/
theorem renew_single_refresh (env : Env) (c : Counters) (method url : String)
    (h1 : (env.responses c.reqCount).status = 401)
    (h2 : env.refreshOk c.refreshCount = true) :
    (renewTokenWithNeeded env c).2 = ⟨c.reqCount + 2, c.refreshCount + 1⟩ ∧
    ((env.responses (c.reqCount + 1)).status = 401 →
      (renewTokenWithNeeded env c).1 =
        .authError (env.responses (c.reqCount + 1)).statusText) ∧
    ((env.responses (c.reqCount + 1)).status ≠ 401 →
      (renewTokenWithNeeded env c).1 = .ok (env.responses (c.reqCount + 1)).body) ∧
    ((∀ i, (env.responses i).status = 401) → (∀ j, env.refreshOk j = true) →
      requestGraphApi env method url =
        (.errorThrown (maxRetriesMsg method url), ⟨6, 3⟩)) := by
  refine ⟨?_, ?_, ?_, ?_⟩
  · unfold renewTokenWithNeeded
    rw [if_pos h1, if_pos h2]
    split <;> rfl
  · intro h3
    unfold renewTokenWithNeeded
    rw [if_pos h1, if_pos h2, if_pos h3]
  · intro h3
    unfold renewTokenWithNeeded
    rw [if_pos h1, if_pos h2, if_neg h3]
  · intro hA hR
    have s1 := goReq_step_auth env method url 2 0 0 (hA 0) (hA 1) (hR 0)
    have s2 := goReq_step_auth env method url 1 2 1 (hA 2) (hA 3) (hR 1)
    have s3 := goReq_step_auth env method url 0 4 2 (hA 4) (hA 5) (hR 2)
    calc requestGraphApi env method url
        = goReq env method url 3 ⟨0, 0⟩ := rfl
      _ = goReq env method url 2 ⟨2, 1⟩ := s1
      _ = goReq env method url 1 ⟨4, 2⟩ := s2
      _ = goReq env method url 0 ⟨6, 3⟩ := s3
      _ = (.errorThrown (maxRetriesMsg method url), ⟨6, 3⟩) := rfl

/-- C1 witness for the amended statement: first response 401, refresh
succeeds, second response 200 — the attempt makes two transport requests and
one refresh and returns the second body. -/
theorem renew_single_refresh_witness :
    (renewTokenWithNeeded
        ⟨fun i => if i = 0 then ⟨401, "Unauthorized", .success 0⟩ else ⟨200, "OK", .success 7⟩,
          fun _ => true⟩ initialCounters).2 = ⟨2, 1⟩ ∧
    (renewTokenWithNeeded
        ⟨fun i => if i = 0 then ⟨401, "Unauthorized", .success 0⟩ else ⟨200, "OK", .success 7⟩,
          fun _ => true⟩ initialCounters).1 = .ok (.success 7) := by
  have h := renew_single_refresh
    ⟨fun i => if i = 0 then ⟨401, "Unauthorized", .success 0⟩ else ⟨200, "OK", .success 7⟩,
      fun _ => true⟩ initialCounters "GET" "me" (by decide) (by decide)
  exact ⟨h.1, h.2.2.1 (by decide)⟩

/-- C1 counterexample: with every response a 401 and every refresh
succeeding, the operation performs three refresh calls (not exactly one) and
fails with the max-retries error rather than an authorization error — the
per-attempt authorization error is swallowed by the retry loop. -/
theorem request_all401_refreshes_thrice :
    requestGraphApi ⟨fun _ => ⟨401, "Unauthorized", .success 0⟩, fun _ => true⟩ "GET" "me" =
      (.errorThrown (maxRetriesMsg "GET" "me"), ⟨6, 3⟩) := rfl

/-- C6: whenever one attempt's response carries an application error whose
message matches the ignorable IO-read pattern, the request returns `null` at
once — whatever number of retries remains, even the last one — and, started
fresh, the whole request returns `null` instead of throwing. -/
theorem ignorable_error_null (env : Env) (c c' : Counters) (msg : String)
    (fuel : ℕ) (method url : String)
    (h1 : renewTokenWithNeeded env c = (.ok (.error msg), c'))
    (h2 : ignorableMsg msg = true) :
    goReq env method url (fuel + 1) c = (.nullResult, c') ∧
    (c = initialCounters → requestGraphApi env method url = (.nullResult, c')) := by
  have main : ∀ f : ℕ, goReq env method url (f + 1) c = (.nullResult, c') := by
    intro f
    rw [goReq_succ, h1]
    simp [h2]
  refine ⟨main fuel, fun hc => ?_⟩
  subst hc
  exact main 2

/-- C6 witness: a 200 response with the ignorable error body yields `null`
on the very last allowed attempt. -/
theorem ignorable_error_null_witness :
    goReq ⟨fun _ => ⟨200, "OK", .error "IO error during request payload read"⟩, fun _ => true⟩
      "POST" "items" 1 initialCounters = (.nullResult, ⟨1, 0⟩) :=
  (ignorable_error_null
    ⟨fun _ => ⟨200, "OK", .error "IO error during request payload read"⟩, fun _ => true⟩
    initialCounters ⟨1, 0⟩ "IO error during request payload read" 0
    "POST" "items" rfl (by decide)).1

/-- C7: `uploadFile` returns `null` — without throwing and without a single
transport request — whenever the local file does not exist; and when the file
exists and the PUT pipeline throws, the failure is wrapped in the upload
`BaseError` carrying the attempted remote path. -/
theorem uploadFile_spec (env : Env) (fsE : String → Bool) (n : ℕ)
    (spFolder dir folder file : String) :
    (fsE (dir ++ "/" ++ file) = false →
      uploadFile env fsE n spFolder dir folder file = (.nullResult, initialCounters)) ∧
    (∀ msg c, fsE (dir ++ "/" ++ file) = true →
      requestGraphApi env "PUT" (uploadUrlFile n spFolder folder file) =
        (.errorThrown msg, c) →
      uploadFile env fsE n spFolder dir folder file =
        (.uploadError ("Cannot upload a new file in " ++ uploadUrlFile n spFolder folder file),
          c)) := by
  constructor
  · intro h
    unfold uploadFile
    rw [h]
    simp
  · intro msg c h1 h2
    unfold uploadFile
    rw [if_pos h1, h2]

/-- C7 witness: both branches at concrete inputs — an absent file yields
`null` with zero transport requests; an always-failing transport wraps the
max-retries error in the upload error carrying the remote path. -/
theorem uploadFile_spec_witness :
    uploadFile ⟨fun _ => ⟨500, "Server Error", .error "boom"⟩, fun _ => true⟩ (fun _ => false) 0
      "me/drive/root" "dir" "Docs" "x.txt" = (.nullResult, initialCounters) ∧
    uploadFile ⟨fun _ => ⟨500, "Server Error", .error "boom"⟩, fun _ => true⟩ (fun _ => true) 0
      "me/drive/root" "dir" "Docs" "x.txt" =
      (.uploadError ("Cannot upload a new file in " ++
        uploadUrlFile 0 "me/drive/root" "Docs" "x.txt"), ⟨3, 0⟩) :=
  ⟨(uploadFile_spec _ _ 0 "me/drive/root" "dir" "Docs" "x.txt").1 rfl,
    (uploadFile_spec _ _ 0 "me/drive/root" "dir" "Docs" "x.txt").2 _ _ rfl rfl⟩

/-- C10: token logging is enabled only when the `logToken` construction
parameter is exactly the string `'true'`: the boolean `true` leaves it
disabled, and for every value other than the string `'true'` the token is
never written by `#setAuthorizationTokens`. -/
theorem shouldLogToken_strict (v : JsVal) (tok : String)
    (h : v ≠ JsVal.str "true") :
    shouldLogToken (JsVal.bool true) = false ∧
    setAuthorizationTokensLog (shouldLogToken v) tok = [] := by
  refine ⟨rfl, ?_⟩
  have hv : shouldLogToken v = false := by
    cases v with
    | str s =>
      simp only [shouldLogToken, beq_eq_false_iff_ne, ne_eq]
      intro hs
      exact h (by rw [hs])
    | bool b => rfl
    | undef => rfl
  rw [hv]
  rfl

/-- C10 witness: constructing with the boolean `true` logs nothing. -/
theorem shouldLogToken_strict_witness :
    setAuthorizationTokensLog (shouldLogToken (JsVal.bool true)) "secret-token" = [] :=
  (shouldLogToken_strict (JsVal.bool true) "secret-token" (by decide)).2

end MsGraphService
